import Mathlib

/-!
Verification of the clause concatenation engine of the `sql_query_builder`
crate.  Rust strings are embedded as `List Char`; each builder method and
each rendering function of the source is translated into an executable
Lean definition, and the documented properties are proved as theorems.
-/

namespace Sql

/-- Strings of the Rust source are embedded as lists of characters. -/
abbrev Str := List Char

/-- Embedding of Rust `str::trim_start`: drop leading whitespace. -/
def trimLeft (s : Str) : Str := s.dropWhile (fun c => c.isWhitespace)

/-- Embedding of Rust `str::trim_end`: drop trailing whitespace. -/
def trimRight (s : Str) : Str := (s.reverse.dropWhile (fun c => c.isWhitespace)).reverse

/-- Embedding of Rust `str::trim`: drop leading and trailing whitespace. -/
def trim (s : Str) : Str := trimRight (trimLeft s)

/-- Embedding of Rust `slice::join` on string slices. -/
def joinWith (sep : Str) : List Str → Str
  | [] => []
  | [x] => x
  | x :: xs => x ++ sep ++ joinWith sep xs

/-- Modelled from the spec: the formatter configuration of the missing
`fmt` module (`crate::fmt::Formatter`), holding the field separator, the
line-break token and the space token used during rendering. -/
structure Formatter where
  comma : Str
  lb : Str
  space : Str
deriving DecidableEq

/-- Modelled from the spec: the one-line formatter configuration returned
by the missing `fmt::one_line` (empty line-break token, single-space
separators, comma-space list separator). -/
def one_line : Formatter :=
  { comma := (", ").data, lb := [], space := (" ").data }

/-- Modelled from the spec: the multi-line formatter configuration
returned by the missing `fmt::multiline` (newline line-break token). -/
def multiline : Formatter :=
  { comma := (", ").data, lb := [(Char.ofNat 10)], space := (" ").data }

/-- Collapse every run of whitespace into a single space character. -/
def collapseWs : Str → Str
  | [] => []
  | c :: rest =>
      if c.isWhitespace then
        (' ') :: collapseWs (rest.dropWhile (fun d => d.isWhitespace))
      else
        c :: collapseWs rest
termination_by s => s.length
decreasing_by
  all_goals simp_wf
  all_goals exact Nat.lt_succ_of_le (List.dropWhile_sublist _).length_le

/-- Modelled from the spec: the missing `fmt::format` post-processing pass.
In one-line mode (empty line-break token) runs of whitespace are collapsed
and the result trimmed; in multi-line mode the line-break tokens inserted
by the assembler are already real line terminators and the text passes
through. -/
def format (query : Str) (fmts : Formatter) : Str :=
  if fmts.lb.isEmpty then trim (collapseWs query) else query

/-- Modelled from the spec: the missing `crate::behavior::push_unique`
used by every multi-valued clause.  Per the accumulator contract a value
already present is not appended again, and an empty trimmed value is
rejected (not appended). -/
def push_unique (list : List Str) (value : Str) : List Str :=
  if value = [] then list
  else if value ∈ list then list
  else list ++ [value]

/-- Modelled from the spec: the missing `crate::concat::raw_queries` — the
render-time lookup is a filter of the ledger by clause identifier,
preserving chronological order among same-clause injections. -/
def raw_queries {C : Type} [DecidableEq C] (raw_list : List (C × Str)) (clause : C) : List Str :=
  (raw_list.filter (fun item => item.1 = clause)).map (fun item => item.2)

/-- Modelled from the spec: the missing `crate::concat::concat_raw_before_after`
(called from `drop_index_internal.rs`): the space-joined before-injections,
a separating space when they are non-empty, the clause body, the
space-joined after-injections and a trailing space when those are
non-empty, appended to the query built so far. -/
def concat_raw_before_after {C : Type} [DecidableEq C]
    (items_before items_after : List (C × Str)) (query : Str)
    (fmts : Formatter) (clause : C) (sql : Str) : Str :=
  let raw_before := joinWith fmts.space (raw_queries items_before clause)
  let raw_after := joinWith fmts.space (raw_queries items_after clause)
  let space_before : Str := if raw_before.isEmpty then [] else fmts.space
  let space_after : Str := if raw_after.isEmpty then [] else fmts.space
  query ++ raw_before ++ space_before ++ sql ++ raw_after ++ space_after

/-- Modelled from the spec: the missing `Concat::concat_raw` default
method — the synthetic before-everything raw fragments, space-joined,
rendered ahead of every clause. -/
def concat_raw (query : Str) (fmts : Formatter) (items : List Str) : Str :=
  if items.isEmpty then query
  else query ++ joinWith fmts.space items ++ fmts.space ++ fmts.lb

/-- The clause identifiers of the `Insert` statement kind (the variants of
`crate::structure::InsertClause` used by the modelled clauses). -/
inductive InsertClause where
  | InsertInto
  | Values
  | OnConflict
  | Returning
deriving DecidableEq

/-- The state of an `Insert` builder (`crate::structure::Insert`),
restricted to the clauses modelled here: the singular `insert into` and
`on conflict` values, the multi-valued `values` and `returning` lists, the
before-everything raw fragments and the before/after raw-injection
ledgers. -/
structure Insert where
  _insert_into : Str := []
  _on_conflict : Str := []
  _values : List Str := []
  _returning : List Str := []
  _raw : List Str := []
  _raw_before : List (InsertClause × Str) := []
  _raw_after : List (InsertClause × Str) := []
deriving DecidableEq

/-- Embedding of `Insert::new` (`Self::default()`: every field empty). -/
def Insert.new : Insert := {}

/-- Embedding of `Insert::insert_into`: trims and overwrites. -/
def Insert.insert_into (self : Insert) (table_name : Str) : Insert :=
  { self with _insert_into := trim table_name }

/-- Embedding of `Insert::on_conflict`: trims and overwrites. -/
def Insert.on_conflict (self : Insert) (conflict : Str) : Insert :=
  { self with _on_conflict := trim conflict }

/-- Embedding of `Insert::values`: trims and appends uniquely. -/
def Insert.values (self : Insert) (value : Str) : Insert :=
  { self with _values := push_unique self._values (trim value) }

/-- Embedding of `Insert::returning`: trims and appends uniquely. -/
def Insert.returning (self : Insert) (output_name : Str) : Insert :=
  { self with _returning := push_unique self._returning (trim output_name) }

/-- Embedding of `Insert::raw`: trims and appends uniquely to the
before-everything raw fragments. -/
def Insert.raw (self : Insert) (raw_sql : Str) : Insert :=
  { self with _raw := push_unique self._raw (trim raw_sql) }

/-- Embedding of `Insert::raw_before`: trims and records the pair in call
order (every call preserved). -/
def Insert.raw_before (self : Insert) (clause : InsertClause) (raw_sql : Str) : Insert :=
  { self with _raw_before := self._raw_before ++ [(clause, trim raw_sql)] }

/-- Embedding of `Insert::raw_after`: trims and records the pair in call
order (every call preserved). -/
def Insert.raw_after (self : Insert) (clause : InsertClause) (raw_sql : Str) : Insert :=
  { self with _raw_after := self._raw_after ++ [(clause, trim raw_sql)] }

/-- Modelled from the spec: the missing `Insert` clause renderer for the
`insert into` clause (the keyword, a space, the stored value, a space and
the line-break token when the stored value is non-empty), wrapped in its
raw injections. -/
def Insert.concat_insert_into (self : Insert) (query : Str) (fmts : Formatter) : Str :=
  let sql : Str :=
    if self._insert_into.isEmpty then []
    else ("INSERT INTO").data ++ fmts.space ++ self._insert_into ++ fmts.space ++ fmts.lb
  concat_raw_before_after self._raw_before self._raw_after query fmts InsertClause.InsertInto sql

/-- Modelled from the spec: the missing `Insert` clause renderer for the
`values` clause (the keyword, a space, the comma-joined accumulated
values, a space and the line-break token when the accumulated list is
non-empty), wrapped in its raw injections. -/
def Insert.concat_values (self : Insert) (query : Str) (fmts : Formatter) : Str :=
  let sql : Str :=
    if self._values.isEmpty then []
    else ("VALUES").data ++ fmts.space ++ joinWith fmts.comma self._values ++ fmts.space ++ fmts.lb
  concat_raw_before_after self._raw_before self._raw_after query fmts InsertClause.Values sql

/-- Modelled from the spec: the missing `Insert` clause renderer for the
`on conflict` clause, wrapped in its raw injections. -/
def Insert.concat_on_conflict (self : Insert) (query : Str) (fmts : Formatter) : Str :=
  let sql : Str :=
    if self._on_conflict.isEmpty then []
    else ("ON CONFLICT").data ++ fmts.space ++ self._on_conflict ++ fmts.space ++ fmts.lb
  concat_raw_before_after self._raw_before self._raw_after query fmts InsertClause.OnConflict sql

/-- Modelled from the spec: the missing `Insert` clause renderer for the
`returning` clause (comma-joined accumulated names), wrapped in its raw
injections. -/
def Insert.concat_returning (self : Insert) (query : Str) (fmts : Formatter) : Str :=
  let sql : Str :=
    if self._returning.isEmpty then []
    else ("RETURNING").data ++ fmts.space ++ joinWith fmts.comma self._returning ++ fmts.space ++ fmts.lb
  concat_raw_before_after self._raw_before self._raw_after query fmts InsertClause.Returning sql

/-- Modelled from the spec: the missing `Concat for Insert` assembler —
the raw fragments first, then the clauses in the fixed grammar order
`insert into`, `values`, `on conflict`, `returning`, with a final
trailing-whitespace trim. -/
def Insert.concat (self : Insert) (fmts : Formatter) : Str :=
  let query := concat_raw [] fmts self._raw
  let query := self.concat_insert_into query fmts
  let query := self.concat_values query fmts
  let query := self.concat_on_conflict query fmts
  let query := self.concat_returning query fmts
  trimRight query

/-- Embedding of `Insert::as_string`: render with the one-line formatter. -/
def Insert.as_string (self : Insert) : Str :=
  self.concat one_line

/-- Embedding of `Insert::debug`: the printed multi-line formatted render
paired with the statement value returned for further chaining. -/
def Insert.debug (self : Insert) : Str × Insert :=
  (format (self.concat multiline) multiline, self)

/-- Embedding of `Insert::print`: the printed one-line formatted render
paired with the statement value returned for further chaining. -/
def Insert.print (self : Insert) : Str × Insert :=
  (format (self.concat one_line) one_line, self)

/-- Embedding of `impl std::fmt::Display for Insert`: writes
`self.as_string()`. -/
def Insert.display_impl (self : Insert) : Str :=
  self.as_string

/-- Embedding of `impl std::fmt::Debug for Insert`: writes
`fmt::format(self.concat(&fmts), &fmts)` with the multi-line formatter. -/
def Insert.debug_impl (self : Insert) : Str :=
  format (self.concat multiline) multiline

/-- The clause identifiers of the `DropIndex` statement kind
(`crate::structure::DropIndexParams`). -/
inductive DropIndexParams where
  | DropIndex
deriving DecidableEq

/-- The state of a `DropIndex` builder (`crate::structure::DropIndex`):
the accumulated index names, the `if exists` flag, the before-everything
raw fragments and the before/after raw-injection ledgers. -/
structure DropIndex where
  _drop_index : List Str := []
  _if_exists : Bool := false
  _raw : List Str := []
  _raw_before : List (DropIndexParams × Str) := []
  _raw_after : List (DropIndexParams × Str) := []
deriving DecidableEq

/-- Modelled from the spec: the missing `DropIndex::new` (created empty). -/
def DropIndex.new : DropIndex := {}

/-- Modelled from the spec: the missing `DropIndex::drop_index` builder
method — the index-name list is a multi-valued clause, so the trimmed
name is appended uniquely. -/
def DropIndex.drop_index (self : DropIndex) (index_name : Str) : DropIndex :=
  { self with _drop_index := push_unique self._drop_index (trim index_name) }

/-- Modelled from the spec: the missing `DropIndex::if_exists` builder
method — sets the `if exists` guard flag. -/
def DropIndex.if_exists (self : DropIndex) : DropIndex :=
  { self with _if_exists := true }

/-- Modelled from the spec: the missing `DropIndex::raw` builder method —
trims and appends uniquely to the before-everything raw fragments. -/
def DropIndex.raw (self : DropIndex) (raw_sql : Str) : DropIndex :=
  { self with _raw := push_unique self._raw (trim raw_sql) }

/-- Modelled from the spec: the missing `DropIndex::raw_before` builder
method — trims and records the pair in call order. -/
def DropIndex.raw_before (self : DropIndex) (clause : DropIndexParams) (raw_sql : Str) : DropIndex :=
  { self with _raw_before := self._raw_before ++ [(clause, trim raw_sql)] }

/-- Modelled from the spec: the missing `DropIndex::raw_after` builder
method — trims and records the pair in call order. -/
def DropIndex.raw_after (self : DropIndex) (clause : DropIndexParams) (raw_sql : Str) : DropIndex :=
  { self with _raw_after := self._raw_after ++ [(clause, trim raw_sql)] }

/-- Embedding of `DropIndex::concat_drop_index`
(`drop_index_internal.rs`).  The compile-time `postgresql` feature flag is
a parameter; the restricted branch's `last().unwrap()` is embedded as
`getLast?`, propagated through `Option` so that a reached `none` would
surface as a failed render. -/
def DropIndex.concat_drop_index (postgresql : Bool) (self : DropIndex)
    (query : Str) (fmts : Formatter) : Option Str :=
  let sql? : Option Str :=
    if self._drop_index.isEmpty = false then
      let if_exists : Str :=
        if self._if_exists then ("IF EXISTS").data ++ fmts.space else []
      let index_names? : Option Str :=
        if postgresql then
          some (joinWith fmts.comma (self._drop_index.filter (fun item => item.isEmpty = false)))
        else
          self._drop_index.getLast?
      index_names?.map (fun index_names =>
        ("DROP INDEX").data ++ fmts.space ++ if_exists ++ index_names ++ fmts.space ++ fmts.lb)
    else
      some []
  sql?.map (fun sql =>
    concat_raw_before_after self._raw_before self._raw_after query fmts
      DropIndexParams.DropIndex sql)

/-- Embedding of `impl Concat for DropIndex` (`drop_index_internal.rs`):
the raw fragments, then the drop-index clause, then a trailing-whitespace
trim. -/
def DropIndex.concat (postgresql : Bool) (self : DropIndex) (fmts : Formatter) : Option Str :=
  let query := concat_raw [] fmts self._raw
  (self.concat_drop_index postgresql query fmts).map trimRight

/-- Modelled from the spec: the missing `DropIndex::as_string` — render
with the one-line formatter. -/
def DropIndex.as_string (postgresql : Bool) (self : DropIndex) : Option Str :=
  self.concat postgresql one_line

/-- Dropping with the same predicate twice equals dropping once. -/
lemma dropWhile_dropWhile (p : Char → Bool) (l : Str) :
    List.dropWhile p (List.dropWhile p l) = List.dropWhile p l := by
  induction l with
  | nil => simp
  | cons a t ih =>
      by_cases h : p a = true
      · rw [List.dropWhile_cons_of_pos h]; exact ih
      · rw [List.dropWhile_cons_of_neg h, List.dropWhile_cons_of_neg h]

/-- The head surviving a `dropWhile` fails the predicate. -/
lemma dropWhile_head_false {p : Char → Bool} :
    ∀ {l c t}, List.dropWhile p l = c :: t → p c = false := by
  intro l
  induction l with
  | nil => intro c t h; simp at h
  | cons a l ih =>
      intro c t h
      by_cases hp : p a = true
      · rw [List.dropWhile_cons_of_pos hp] at h; exact ih h
      · rw [List.dropWhile_cons_of_neg hp] at h
        injection h with h1 _
        subst h1
        exact Bool.eq_false_iff.mpr hp

/-- A list fixed by `dropWhile` is empty or starts with a failing character. -/
lemma dropWhile_cons_self {p : Char → Bool} {c : Char} {t : Str}
    (h : List.dropWhile p (c :: t) = c :: t) : p c = false := by
  by_cases hp : p c = true
  · rw [List.dropWhile_cons_of_pos hp] at h
    have h1 := congrArg List.length h
    have h2 := (List.dropWhile_sublist (l := t) p).length_le
    simp at h1
    omega
  · exact Bool.eq_false_iff.mpr hp

/-- Dropping a fully-satisfying prefix block passes through. -/
lemma dropWhile_append_all {p : Char → Bool} (u v : Str)
    (hu : ∀ c ∈ u, p c = true) :
    List.dropWhile p (u ++ v) = List.dropWhile p v := by
  induction u with
  | nil => simp
  | cons a u ih =>
      rw [List.cons_append, List.dropWhile_cons_of_pos (hu a (by simp))]
      exact ih (fun c hc => hu c (by simp [hc]))

/-- Left-trimming is idempotent. -/
lemma trimLeft_idem (s : Str) : trimLeft (trimLeft s) = trimLeft s :=
  dropWhile_dropWhile _ s

/-- Right-trimming is idempotent. -/
lemma trimRight_idem (s : Str) : trimRight (trimRight s) = trimRight s := by
  unfold trimRight
  rw [List.reverse_reverse, dropWhile_dropWhile]

/-- Right-trimming a left-trimmed list keeps it left-trimmed. -/
lemma trimLeft_trimRight_of (s : Str) (h : trimLeft s = s) :
    trimLeft (trimRight s) = trimRight s := by
  rcases hr : trimRight s with _ | ⟨c, t⟩
  · simp [trimLeft]
  · have hpref : trimRight s <+: s := by
      have hsuf : List.dropWhile (fun c => c.isWhitespace) s.reverse <:+ s.reverse :=
        List.dropWhile_suffix _
      have hp2 := List.reverse_prefix.mpr hsuf
      rwa [List.reverse_reverse] at hp2
    obtain ⟨r, hr2⟩ := hpref
    rw [hr] at hr2
    have hs : List.dropWhile (fun c => c.isWhitespace) (c :: (t ++ r)) = c :: (t ++ r) := by
      have h3 : s = c :: (t ++ r) := by rw [← hr2]; simp
      have h4 := h
      unfold trimLeft at h4
      rw [h3] at h4
      exact h4
    have hc := dropWhile_cons_self hs
    unfold trimLeft
    rw [List.dropWhile_cons_of_neg (by simp [hc])]

/-- Embedded `trim` is idempotent. -/
lemma trim_idem (s : Str) : trim (trim s) = trim s := by
  unfold trim
  rw [trimLeft_trimRight_of (trimLeft s) (trimLeft_idem s), trimRight_idem]

/-- Right-trimming ignores a fully-whitespace suffix. -/
lemma trimRight_append_ws (x y : Str) (hy : ∀ c ∈ y, c.isWhitespace = true) :
    trimRight (x ++ y) = trimRight x := by
  unfold trimRight
  rw [List.reverse_append, dropWhile_append_all _ _ (fun c hc => hy c (by simpa using hc))]

/-- A list ending in a non-whitespace character is right-trimmed. -/
lemma trimRight_append_last (x : Str) (c : Char) (h : c.isWhitespace = false) :
    trimRight (x ++ [c]) = x ++ [c] := by
  unfold trimRight
  rw [List.reverse_append]
  simp only [List.reverse_cons, List.reverse_nil, List.nil_append, List.singleton_append]
  rw [List.dropWhile_cons_of_neg (by simp [h])]
  simp

/-- A non-empty right-trimmed list ends in a non-whitespace character. -/
lemma trimRight_ends (u : Str) (h : trimRight u ≠ []) :
    ∃ y c, trimRight u = y ++ [c] ∧ c.isWhitespace = false := by
  unfold trimRight at h ⊢
  rcases hd : List.dropWhile (fun c => c.isWhitespace) u.reverse with _ | ⟨c, t⟩
  · rw [hd] at h; simp at h
  · refine ⟨t.reverse, c, ?_, ?_⟩
    · rw [hd]; simp
    · simpa using dropWhile_head_false hd

/-- A non-empty trimmed string ends in a non-whitespace character. -/
lemma trim_ends (s : Str) (h : trim s ≠ []) :
    ∃ y c, trim s = y ++ [c] ∧ c.isWhitespace = false :=
  trimRight_ends _ h

/-- Right-trimming text that ends in a non-whitespace block followed by
whitespace recovers exactly the text up to that block. -/
lemma trimRight_append_ws_of_ends (A B ws : Str)
    (hB : ∃ y c, B = y ++ [c] ∧ c.isWhitespace = false)
    (hws : ∀ c ∈ ws, c.isWhitespace = true) :
    trimRight (A ++ B ++ ws) = A ++ B := by
  obtain ⟨y, c, hBe, hc⟩ := hB
  rw [trimRight_append_ws _ _ hws, hBe, ← List.append_assoc, trimRight_append_last _ _ hc]

/-- Appending an empty value is a no-op. -/
lemma push_unique_nil_val (l : List Str) (v : Str) (h : v = []) :
    push_unique l v = l := by simp [push_unique, h]

/-- Appending a value already present is a no-op. -/
lemma push_unique_of_mem (l : List Str) (v : Str) (h : v ∈ l) :
    push_unique l v = l := by simp [push_unique, h]

/-- Appending a fresh non-empty value extends the list at the end. -/
lemma push_unique_append (l : List Str) (v : Str) (h0 : v ≠ []) (h1 : v ∉ l) :
    push_unique l v = l ++ [v] := by simp [push_unique, h0, h1]

/-- Appending the same value twice equals appending it once. -/
lemma push_unique_idem (l : List Str) (v : Str) :
    push_unique (push_unique l v) v = push_unique l v := by
  by_cases h0 : v = []
  · rw [push_unique_nil_val _ _ h0, push_unique_nil_val _ _ h0]
  · by_cases h1 : v ∈ l
    · rw [push_unique_of_mem _ _ h1, push_unique_of_mem _ _ h1]
    · rw [push_unique_append _ _ h0 h1, push_unique_of_mem _ _ (by simp)]

/-- Ledger lookup distributes over ledger concatenation. -/
lemma raw_queries_append {C : Type} [DecidableEq C] (l1 l2 : List (C × Str)) (c : C) :
    raw_queries (l1 ++ l2) c = raw_queries l1 c ++ raw_queries l2 c := by
  simp [raw_queries, List.filter_append]

/-- Ledger lookup on a matching singleton. -/
lemma raw_queries_single_eq {C : Type} [DecidableEq C] (c : C) (x : Str) :
    raw_queries [(c, x)] c = [x] := by simp [raw_queries]

/-- Ledger lookup on a non-matching singleton. -/
lemma raw_queries_single_ne {C : Type} [DecidableEq C] (c d : C) (x : Str) (h : c ≠ d) :
    raw_queries [(c, x)] d = [] := by simp [raw_queries, h]

/-- Recording two injections for distinct clauses in either order gives
the same render-time lookup at every clause. -/
lemma raw_queries_swap {C : Type} [DecidableEq C] (l : List (C × Str)) (c1 c2 c : C)
    (x y : Str) (h : c1 ≠ c2) :
    raw_queries (l ++ [(c1, x), (c2, y)]) c = raw_queries (l ++ [(c2, y), (c1, x)]) c := by
  rw [raw_queries_append, raw_queries_append]
  congr 1
  by_cases h1 : c1 = c <;> by_cases h2 : c2 = c <;>
    simp_all [raw_queries, List.filter_cons]

/-- Dropping stops inside the first block when something there survives. -/
lemma dropWhile_append_ne_nil {p : Char → Bool} (u v : Str)
    (h : List.dropWhile p u ≠ []) :
    List.dropWhile p (u ++ v) = List.dropWhile p u ++ v := by
  induction u with
  | nil => simp at h
  | cons a u ih =>
      by_cases hp : p a = true
      · rw [List.cons_append, List.dropWhile_cons_of_pos hp, List.dropWhile_cons_of_pos hp]
        exact ih (by rwa [List.dropWhile_cons_of_pos hp] at h)
      · rw [List.cons_append, List.dropWhile_cons_of_neg hp, List.dropWhile_cons_of_neg hp,
          List.cons_append]

/-- Right-trimming distributes over an append whose right part survives. -/
lemma trimRight_append_right (A B : Str) (h : trimRight B ≠ []) :
    trimRight (A ++ B) = A ++ trimRight B := by
  unfold trimRight at h ⊢
  rw [List.reverse_append, dropWhile_append_ne_nil _ _ (by
    intro hc
    exact h (by rw [hc]; simp))]
  simp

/-- Right-trimming a trimmed string changes nothing. -/
lemma trimRight_trim (s : Str) : trimRight (trim s) = trim s :=
  trimRight_idem (trimLeft s)

/-- A list known to end in a non-whitespace character is right-trimmed. -/
lemma trimRight_of_ends (x : Str) (h : ∃ y c, x = y ++ [c] ∧ c.isWhitespace = false) :
    trimRight x = x := by
  obtain ⟨y, c, he, hc⟩ := h
  rw [he]
  exact trimRight_append_last _ _ hc

/-- Joining a non-empty list and one more element. -/
lemma joinWith_cons (sep x : Str) (m : List Str) (h : m ≠ []) :
    joinWith sep (x :: m) = x ++ sep ++ joinWith sep m := by
  cases m with
  | nil => exact absurd rfl h
  | cons b t => rfl

/-- A join over a non-empty list whose last element ends in a
non-whitespace character itself ends in a non-whitespace character. -/
lemma joinWith_ends (sep : Str) (l : List Str) (x : Str)
    (hx : ∃ y c, x = y ++ [c] ∧ c.isWhitespace = false) :
    ∃ y c, joinWith sep (l ++ [x]) = y ++ [c] ∧ c.isWhitespace = false := by
  obtain ⟨y, c, he, hc⟩ := hx
  induction l with
  | nil => exact ⟨y, c, by simpa using he, hc⟩
  | cons a t ih =>
      obtain ⟨y2, c2, he2, hc2⟩ := ih
      refine ⟨a ++ sep ++ y2, c2, ?_, hc2⟩
      rw [List.cons_append, joinWith_cons _ _ _ (by simp), he2]
      simp [List.append_assoc]

/-- The render of two injections recorded for one clause is the two texts
joined by the formatter's space token, in call order. -/
lemma raw_queries_pair {C : Type} [DecidableEq C] (c : C) (a b : Str) :
    raw_queries [(c, a), (c, b)] c = [a, b] := by
  simp [raw_queries, List.filter_cons]

/-- Congruence for the injection wrapper: only the render-time lookups of
the two ledgers matter. -/
lemma concat_raw_before_after_congr {C : Type} [DecidableEq C]
    {b1 b2 a1 a2 : List (C × Str)} (q : Str) (fmts : Formatter) (c : C) (sql : Str)
    (hb : raw_queries b1 c = raw_queries b2 c)
    (ha : raw_queries a1 c = raw_queries a2 c) :
    concat_raw_before_after b1 a1 q fmts c sql
      = concat_raw_before_after b2 a2 q fmts c sql := by
  simp only [concat_raw_before_after, hb, ha]

/-- Congruence for the `Insert` assembler: two states with the same clause
values and the same render-time ledger lookups render identically. -/
lemma Insert.concat_congr (s1 s2 : Insert) (fmts : Formatter)
    (h1 : s1._insert_into = s2._insert_into)
    (h2 : s1._on_conflict = s2._on_conflict)
    (h3 : s1._values = s2._values)
    (h4 : s1._returning = s2._returning)
    (h5 : s1._raw = s2._raw)
    (hb : ∀ c, raw_queries s1._raw_before c = raw_queries s2._raw_before c)
    (ha : ∀ c, raw_queries s1._raw_after c = raw_queries s2._raw_after c) :
    s1.concat fmts = s2.concat fmts := by
  simp only [Insert.concat, Insert.concat_insert_into, Insert.concat_values,
    Insert.concat_on_conflict, Insert.concat_returning, concat_raw_before_after,
    h1, h2, h3, h4, h5, hb, ha]

/-- Claim C7: rendering never fails — for every reachable statement state
the render (`concat` / `as_string`, one-line or multi-line) is total (the
restricted-dialect branch that unwraps the last index name is only reached
with a non-empty list, so the embedded `Option` is always `some`), and a
freshly constructed statement renders to the empty string. -/
theorem claim_c7_rendering_never_fails :
    (∀ (pg : Bool) (s : DropIndex) (fmts : Formatter),
      (DropIndex.concat pg s fmts).isSome = true)
  ∧ (∀ pg : Bool, DropIndex.concat pg DropIndex.new one_line = some [])
  ∧ (∀ pg : Bool, DropIndex.concat pg DropIndex.new multiline = some [])
  ∧ Insert.new.as_string = []
  ∧ Insert.new.concat multiline = [] := by
  refine ⟨?_, ?_, ?_, rfl, rfl⟩
  · intro pg s fmts
    unfold DropIndex.concat DropIndex.concat_drop_index
    by_cases hd : s._drop_index.isEmpty = false
    · cases pg
      · simp only [hd]
        simp [List.getLast?_isSome, List.isEmpty_eq_false.mp hd]
      · simp [hd]
    · simp [hd]
  · intro pg; cases pg <;> rfl
  · intro pg; cases pg <;> rfl

/-- Claim C8: rendering is a pure read — repeated renders of the same
unmodified statement in a fixed mode are identical, and the debug/print
paths return the statement unchanged, so any number of renders (in any
mode) are deterministic. -/
theorem claim_c8_round_trip_purity (s : Insert) (d : DropIndex) :
    (∀ fmts : Formatter, s.concat fmts = s.concat fmts)
  ∧ (∀ (pg : Bool) (fmts : Formatter),
      DropIndex.concat pg d fmts = DropIndex.concat pg d fmts)
  ∧ (s.debug).2 = s
  ∧ (s.print).2 = s
  ∧ ((s.debug).2).as_string = s.as_string
  ∧ (((s.debug).2).debug).1 = (s.debug).1
  ∧ (((s.print).2).print).1 = (s.print).1 :=
  ⟨fun _ => rfl, fun _ _ => rfl, rfl, rfl, rfl, rfl, rfl⟩

/-- Claim C10: the `Display` implementation produces exactly the string
returned by `as_string` (the one-line render) and the `Debug`
implementation produces the multi-line formatted render, the same text
the `debug()` surface prints. -/
theorem claim_c10_display_debug_impls (s : Insert) :
    s.display_impl = s.as_string
  ∧ s.display_impl = s.concat one_line
  ∧ s.debug_impl = format (s.concat multiline) multiline
  ∧ s.debug_impl = (s.debug).1 := by
  refine ⟨rfl, rfl, rfl, ?_⟩
  simp [Insert.debug_impl, Insert.debug]

/-- Claim C9: every clause-setting builder method trims its argument, so
passing a padded string produces exactly the state (and render) produced
by passing the trimmed string. -/
theorem claim_c9_whitespace_normalization (s : Insert) (d : DropIndex)
    (c : InsertClause) (cd : DropIndexParams) (x : Str) :
    s.insert_into x = s.insert_into (trim x)
  ∧ s.on_conflict x = s.on_conflict (trim x)
  ∧ s.values x = s.values (trim x)
  ∧ s.returning x = s.returning (trim x)
  ∧ s.raw x = s.raw (trim x)
  ∧ s.raw_before c x = s.raw_before c (trim x)
  ∧ s.raw_after c x = s.raw_after c (trim x)
  ∧ d.drop_index x = d.drop_index (trim x)
  ∧ d.raw_before cd x = d.raw_before cd (trim x)
  ∧ (s.insert_into x).as_string = (s.insert_into (trim x)).as_string := by
  have h := trim_idem x
  refine ⟨?_, ?_, ?_, ?_, ?_, ?_, ?_, ?_, ?_, ?_⟩ <;>
    simp [Insert.insert_into, Insert.on_conflict, Insert.values, Insert.returning,
      Insert.raw, Insert.raw_before, Insert.raw_after, DropIndex.drop_index,
      DropIndex.raw_before, Insert.as_string, h]

/-- Claim C3: an all-whitespace input is rejected by every multi-valued
clause (state and render unchanged, in any dialect), while singular
clauses store the empty trimmed value and a later call still
overwrites. -/
theorem claim_c3_empty_input_policy (sI : Insert) (sD : DropIndex) (v w : Str)
    (fmts : Formatter) (pg : Bool) (h : trim v = []) :
    sI.values v = sI
  ∧ sI.returning v = sI
  ∧ sD.drop_index v = sD
  ∧ (sI.values v).concat fmts = sI.concat fmts
  ∧ DropIndex.concat pg (sD.drop_index v) fmts = DropIndex.concat pg sD fmts
  ∧ (sI.insert_into v)._insert_into = []
  ∧ (sI.on_conflict v)._on_conflict = []
  ∧ (sI.insert_into v).insert_into w = sI.insert_into w
  ∧ (sI.on_conflict v).on_conflict w = sI.on_conflict w := by
  have h1 : sI.values v = sI := by simp [Insert.values, push_unique_nil_val _ _ h]
  have h2 : sI.returning v = sI := by simp [Insert.returning, push_unique_nil_val _ _ h]
  have h3 : sD.drop_index v = sD := by simp [DropIndex.drop_index, push_unique_nil_val _ _ h]
  exact ⟨h1, h2, h3, by rw [h1], by rw [h3],
    by simp [Insert.insert_into, h], by simp [Insert.on_conflict, h], rfl, rfl⟩

/-- Claim C3 witness at a concrete all-whitespace input. -/
theorem claim_c3_empty_input_policy_witness :
    Insert.new.values ((" ").data) = Insert.new
  ∧ DropIndex.new.drop_index ((" ").data) = DropIndex.new := by
  have h := claim_c3_empty_input_policy Insert.new DropIndex.new ((" ").data) []
    one_line true (by decide)
  exact ⟨h.1, h.2.2.1⟩

/-- Claim C4: appending the same trimmed value to a multi-valued clause
twice renders exactly as appending it once, while two distinct fresh
values both survive, in call order. -/
theorem claim_c4_idempotent_accumulation (s : Insert) (a b : Str) (fmts : Formatter)
    (ha : trim a ∉ s._values) (hb : trim b ∉ s._values) (hab : trim a ≠ trim b)
    (hea : trim a ≠ []) (heb : trim b ≠ []) :
    ((s.values a).values a).concat fmts = (s.values a).concat fmts
  ∧ ((s.returning a).returning a).concat fmts = (s.returning a).concat fmts
  ∧ ((s.values a).values b)._values = s._values ++ [trim a, trim b] := by
  have h1 : (s.values a).values a = s.values a := by
    simp [Insert.values, push_unique_idem]
  have h2 : (s.returning a).returning a = s.returning a := by
    simp [Insert.returning, push_unique_idem]
  refine ⟨?_, ?_, ?_⟩
  · rw [h1]
  · rw [h2]
  have hb2 : trim b ∉ s._values ++ [trim a] := by
    intro hmem
    rcases List.mem_append.mp hmem with h' | h'
    · exact hb h'
    · have heq : trim b = trim a := by simpa using h'
      exact hab heq.symm
  show push_unique (push_unique s._values (trim a)) (trim b) = _
  rw [push_unique_append _ _ hea ha, push_unique_append _ _ heb hb2, List.append_assoc]
  rfl

/-- Claim C4 witness at concrete values. -/
theorem claim_c4_idempotent_accumulation_witness :
    ((Insert.new.values ("a").data).values ("a").data).concat one_line
      = (Insert.new.values ("a").data).concat one_line
  ∧ ((Insert.new.values ("a").data).values ("b").data)._values
      = Insert.new._values ++ [trim ("a").data, trim ("b").data] := by
  have h := claim_c4_idempotent_accumulation Insert.new ("a").data ("b").data one_line
    (by decide) (by decide) (by decide) (by decide) (by decide)
  exact ⟨h.1, h.2.2⟩

/-- Claim C1: builder calls on distinct clauses commute — both as states
(distinct storage) and in the rendered output for ledger entries, whose
position is fixed by the assembler order, not the call order. -/
theorem claim_c1_clause_order_invariance (s : Insert) (t v x y : Str)
    (c1 c2 : InsertClause) (fmts : Formatter) (h : c1 ≠ c2) :
    (s.values v).insert_into t = (s.insert_into t).values v
  ∧ (s.on_conflict v).insert_into t = (s.insert_into t).on_conflict v
  ∧ (s.returning x).values v = (s.values v).returning x
  ∧ (s.raw x).insert_into t = (s.insert_into t).raw x
  ∧ (s.raw_before c1 x).values v = (s.values v).raw_before c1 x
  ∧ (s.raw_before c1 x).raw_after c2 y = (s.raw_after c2 y).raw_before c1 x
  ∧ ((s.values v).insert_into t).concat fmts = ((s.insert_into t).values v).concat fmts
  ∧ ((s.raw_before c1 x).raw_before c2 y).concat fmts
      = ((s.raw_before c2 y).raw_before c1 x).concat fmts
  ∧ ((s.raw_after c1 x).raw_after c2 y).concat fmts
      = ((s.raw_after c2 y).raw_after c1 x).concat fmts := by
  refine ⟨rfl, rfl, rfl, rfl, rfl, rfl, rfl, ?_, ?_⟩
  · exact Insert.concat_congr _ _ fmts rfl rfl rfl rfl rfl
      (fun c => by
        simpa [Insert.raw_before, List.append_assoc] using
          raw_queries_swap s._raw_before c1 c2 c (trim x) (trim y) h)
      (fun c => rfl)
  · exact Insert.concat_congr _ _ fmts rfl rfl rfl rfl rfl (fun c => rfl)
      (fun c => by
        simpa [Insert.raw_after, List.append_assoc] using
          raw_queries_swap s._raw_after c1 c2 c (trim x) (trim y) h)

/-- Claim C1 witness at concrete inputs. -/
theorem claim_c1_clause_order_invariance_witness :
    ((Insert.new.values ("v").data).insert_into ("t").data).concat one_line
      = ((Insert.new.insert_into ("t").data).values ("v").data).concat one_line := by
  have h := claim_c1_clause_order_invariance Insert.new ("t").data ("v").data
    ("x").data ("y").data InsertClause.InsertInto InsertClause.Values one_line (by decide)
  exact h.2.2.2.2.2.2.1

/-- Claim C5: `raw` suppresses duplicates by exact trimmed text and its
fragments render before everything else, while `raw_before`/`raw_after`
preserve every call (duplicates included) and render a clause's
injections chronologically, joined by the formatter's space token. -/
theorem claim_c5_raw_ledger_policy (s : Insert) (d : DropIndex) (x a b : Str)
    (c : InsertClause) (fmts : Formatter) (pg : Bool) :
    (s.raw x).raw x = s.raw x
  ∧ ((s.raw x).raw x).concat fmts = (s.raw x).concat fmts
  ∧ ((s.raw_before c x).raw_before c x)._raw_before
      = s._raw_before ++ [(c, trim x), (c, trim x)]
  ∧ ((s.raw_after c x).raw_after c x)._raw_after
      = s._raw_after ++ [(c, trim x), (c, trim x)]
  ∧ raw_queries (s._raw_before ++ [(c, a), (c, b)]) c
      = raw_queries s._raw_before c ++ [a, b]
  ∧ joinWith fmts.space (raw_queries [(c, a), (c, b)] c) = a ++ fmts.space ++ b
  ∧ s.concat fmts = trimRight (concat_raw [] fmts s._raw ++
      s.concat_returning (s.concat_on_conflict (s.concat_values
        (s.concat_insert_into [] fmts) fmts) fmts) fmts)
  ∧ DropIndex.concat pg d fmts
      = (d.concat_drop_index pg [] fmts).map
          (fun t => trimRight (concat_raw [] fmts d._raw ++ t)) := by
  have h1 : (s.raw x).raw x = s.raw x := by simp [Insert.raw, push_unique_idem]
  refine ⟨h1, ?_, ?_, ?_, ?_, ?_, ?_, ?_⟩
  · rw [h1]
  · simp [Insert.raw_before, List.append_assoc]
  · simp [Insert.raw_after, List.append_assoc]
  · rw [raw_queries_append, raw_queries_pair]
  · rw [raw_queries_pair]
    simp [joinWith]
  · simp [Insert.concat, Insert.concat_insert_into, Insert.concat_values,
      Insert.concat_on_conflict, Insert.concat_returning, concat_raw_before_after,
      List.append_assoc]
  · simp [DropIndex.concat, DropIndex.concat_drop_index, concat_raw_before_after,
      Option.map_map, List.append_assoc]
    congr 1

/-- Claim C6: injection placement — a before-injection "A" renders as
"A B" ahead of a clause rendering "B", an after-injection renders as
"B A", and around a clause with no accumulated value only the non-empty
injected text renders, with no stray separators. -/
theorem claim_c6_injection_placement (a t : Str) (ha : trim a ≠ []) (ht : trim t ≠ []) :
    ((Insert.new.raw_before InsertClause.InsertInto a).insert_into t).as_string
      = trim a ++ (" ").data ++ ("INSERT INTO").data ++ (" ").data ++ trim t
  ∧ ((Insert.new.insert_into t).raw_after InsertClause.InsertInto a).as_string
      = ("INSERT INTO").data ++ (" ").data ++ trim t ++ (" ").data ++ trim a
  ∧ (Insert.new.raw_before InsertClause.InsertInto a).as_string = trim a
  ∧ (Insert.new.raw_after InsertClause.InsertInto a).as_string = trim a := by
  have hws : ∀ ch ∈ ((" ").data : Str), ch.isWhitespace = true := by decide
  have hAA : trimRight (trim a ++ (" ").data) = trim a := by
    rw [trimRight_append_ws _ _ hws]; exact trimRight_trim a
  have hTT : trimRight (trim t ++ (" ").data) = trim t := by
    rw [trimRight_append_ws _ _ hws]; exact trimRight_trim t
  refine ⟨?_, ?_, ?_, ?_⟩
  · have key : trimRight ((trim a ++ (" ").data ++ ("INSERT INTO").data ++ (" ").data)
          ++ (trim t ++ (" ").data))
        = (trim a ++ (" ").data ++ ("INSERT INTO").data ++ (" ").data) ++ trim t := by
      rw [trimRight_append_right _ _ (by rw [hTT]; exact ht), hTT]
    simp only [Insert.as_string, Insert.concat, Insert.new, Insert.raw_before,
      Insert.insert_into, Insert.concat_insert_into, Insert.concat_values,
      Insert.concat_on_conflict, Insert.concat_returning, concat_raw_before_after,
      concat_raw, raw_queries, one_line]
    simp [ha, ht, List.filter_cons, joinWith, List.append_assoc]
    simpa [List.append_assoc] using key
  · have key : trimRight ((("INSERT INTO").data ++ (" ").data ++ trim t ++ (" ").data)
          ++ (trim a ++ (" ").data))
        = (("INSERT INTO").data ++ (" ").data ++ trim t ++ (" ").data) ++ trim a := by
      rw [trimRight_append_right _ _ (by rw [hAA]; exact ha), hAA]
    simp only [Insert.as_string, Insert.concat, Insert.new, Insert.raw_after,
      Insert.insert_into, Insert.concat_insert_into, Insert.concat_values,
      Insert.concat_on_conflict, Insert.concat_returning, concat_raw_before_after,
      concat_raw, raw_queries, one_line]
    simp [ha, ht, List.filter_cons, joinWith, List.append_assoc]
    simpa [List.append_assoc] using key
  · simp only [Insert.as_string, Insert.concat, Insert.new, Insert.raw_before,
      Insert.concat_insert_into, Insert.concat_values,
      Insert.concat_on_conflict, Insert.concat_returning, concat_raw_before_after,
      concat_raw, raw_queries, one_line]
    simp [ha, List.filter_cons, joinWith, List.append_assoc]
    simpa [List.append_assoc] using hAA
  · simp only [Insert.as_string, Insert.concat, Insert.new, Insert.raw_after,
      Insert.concat_insert_into, Insert.concat_values,
      Insert.concat_on_conflict, Insert.concat_returning, concat_raw_before_after,
      concat_raw, raw_queries, one_line]
    simp [ha, List.filter_cons, joinWith, List.append_assoc]
    simpa [List.append_assoc] using hAA

/-- Claim C6 witness at concrete injection texts. -/
theorem claim_c6_injection_placement_witness :
    ((Insert.new.raw_before InsertClause.InsertInto ("/* note */").data).insert_into
        ("users").data).as_string = ("/* note */ INSERT INTO users").data
  ∧ ((Insert.new.insert_into ("users").data).raw_after InsertClause.InsertInto
        ("values (1)").data).as_string = ("INSERT INTO users values (1)").data
  ∧ (Insert.new.raw_before InsertClause.InsertInto ("/* note */").data).as_string
      = ("/* note */").data := by
  refine ⟨?_, ?_, ?_⟩
  · rw [(claim_c6_injection_placement ("/* note */").data ("users").data
      (by decide) (by decide)).1]
    decide
  · rw [(claim_c6_injection_placement ("values (1)").data ("users").data
      (by decide) (by decide)).2.1]
    decide
  · rw [(claim_c6_injection_placement ("/* note */").data ("users").data
      (by decide) (by decide)).2.2.1]
    decide

/-- Claim C2: dialect divergence for DROP INDEX — with at least two
accumulated (trimmed, non-empty) index names and no raw injections, the
postgresql dialect renders all names comma-joined after the optional
IF EXISTS guard, while the restricted dialect renders only the
most-recently-added name; the choice is the compile-time flag parameter,
never the content. -/
theorem claim_c2_dialect_divergence (s : DropIndex)
    (h2 : 2 ≤ s._drop_index.length)
    (hall : ∀ n ∈ s._drop_index, trim n = n ∧ n ≠ [])
    (hr : s._raw = []) (hb : s._raw_before = []) (hf : s._raw_after = []) :
    DropIndex.concat true s one_line
      = some (("DROP INDEX").data ++ (" ").data
          ++ (if s._if_exists then ("IF EXISTS").data ++ (" ").data else [])
          ++ joinWith ((", ").data) s._drop_index)
  ∧ DropIndex.concat false s one_line
      = some (("DROP INDEX").data ++ (" ").data
          ++ (if s._if_exists then ("IF EXISTS").data ++ (" ").data else [])
          ++ s._drop_index.getLastD []) := by
  have hne : s._drop_index ≠ [] := by
    intro h; rw [h] at h2; simp at h2
  rcases List.eq_nil_or_concat s._drop_index with h | ⟨L, x, hLx⟩
  · exact absurd h hne
  rw [List.concat_eq_append] at hLx
  have hxmem : x ∈ s._drop_index := by rw [hLx]; simp
  have hx := hall x hxmem
  have hxe : ∃ y c, x = y ++ [c] ∧ c.isWhitespace = false := by
    have h3 := trim_ends x (by rw [hx.1]; exact hx.2)
    rwa [hx.1] at h3
  have hws : ∀ ch ∈ ((" ").data : Str), ch.isWhitespace = true := by decide
  have hfilt : List.filter (fun item => !decide (item = [])) s._drop_index = s._drop_index := by
    refine List.filter_eq_self.mpr ?_
    intro n hn
    simp [(hall n hn).2]
  have hjoin : ∃ y c, joinWith ((", ").data) s._drop_index = y ++ [c]
      ∧ c.isWhitespace = false := by
    rw [hLx]; exact joinWith_ends _ L x hxe
  have hJne : joinWith ((", ").data) s._drop_index ≠ [] := by
    obtain ⟨y, c, he, _⟩ := hjoin; rw [he]; simp
  have hJJ : trimRight (joinWith ((", ").data) s._drop_index ++ (" ").data)
      = joinWith ((", ").data) s._drop_index := by
    rw [trimRight_append_ws _ _ hws]; exact trimRight_of_ends _ hjoin
  have hXne : x ≠ [] := hx.2
  have hXX : trimRight (x ++ (" ").data) = x := by
    rw [trimRight_append_ws _ _ hws]; exact trimRight_of_ends _ hxe
  have hlast : s._drop_index.getLast? = some x := by
    rw [hLx]; exact List.getLast?_concat L
  have hlastD : s._drop_index.getLastD [] = x := by
    rw [List.getLastD_eq_getLast?, hlast]; rfl
  constructor
  · have key : trimRight ((("DROP INDEX").data ++ (" ").data
          ++ (if s._if_exists then ("IF EXISTS").data ++ (" ").data else []))
          ++ (joinWith ((", ").data) s._drop_index ++ (" ").data))
        = (("DROP INDEX").data ++ (" ").data
          ++ (if s._if_exists then ("IF EXISTS").data ++ (" ").data else []))
          ++ joinWith ((", ").data) s._drop_index := by
      rw [trimRight_append_right _ _ (by rw [hJJ]; exact hJne), hJJ]
    simp only [DropIndex.concat, DropIndex.concat_drop_index, concat_raw_before_after,
      concat_raw, raw_queries, one_line, hr, hb, hf]
    simp [hne, hfilt, joinWith, List.append_assoc]
    simpa [List.append_assoc] using key
  · have key : trimRight ((("DROP INDEX").data ++ (" ").data
          ++ (if s._if_exists then ("IF EXISTS").data ++ (" ").data else []))
          ++ (x ++ (" ").data))
        = (("DROP INDEX").data ++ (" ").data
          ++ (if s._if_exists then ("IF EXISTS").data ++ (" ").data else [])) ++ x := by
      rw [trimRight_append_right _ _ (by rw [hXX]; exact hXne), hXX]
    simp only [DropIndex.concat, DropIndex.concat_drop_index, concat_raw_before_after,
      concat_raw, raw_queries, one_line, hr, hb, hf]
    simp [hne, hlast, hlastD, joinWith, List.append_assoc]
    simpa [List.append_assoc] using key

/-- Claim C2 witness at the accumulated index names a and b. -/
theorem claim_c2_dialect_divergence_witness :
    DropIndex.concat true ((DropIndex.new.drop_index ("a").data).drop_index ("b").data)
      one_line = some (("DROP INDEX a, b").data)
  ∧ DropIndex.concat false ((DropIndex.new.drop_index ("a").data).drop_index ("b").data)
      one_line = some (("DROP INDEX b").data) := by
  have h := claim_c2_dialect_divergence
    ((DropIndex.new.drop_index ("a").data).drop_index ("b").data)
    (by decide) (by decide) rfl rfl rfl
  constructor
  · rw [h.1]; decide
  · rw [h.2]; decide

end Sql
